import Mathlib

/-!
Verification development for the `exhuma/pre-commit-hooks` repository.

The repository contains two pre-commit hook scripts:

* `src/precommit_hooks/check_for_markers.py` — the canonical scanner.  Its
  core is `collect_errors`, which diffs the old and new text of a file with
  Python's `difflib.unified_diff(old_lines, new_lines, lineterm="", n=0)`,
  walks the resulting diff lines, and for every line starting with `"+"`
  (other than lines whose `strip()` equals `"+++"`) tests every configured
  regex pattern with `re.search` and formats an error string
  `f"Error pattern {pattern!r} detected at {filename}:{line_number}"`.
  Hunk headers `@@ -a,b +c,d @@` are parsed by `parse_line_number`, which
  resets the running new-file line counter.

* `src/precommit_hooks/check_for_xxx.py` — a simplified variant that runs
  `git diff --cached <ref>` and flags every output line whose lowercase form
  contains `# xxx`.

This file embeds those scripts shallowly: Python strings are modelled as
`List Char` (`PyStr`), `difflib.SequenceMatcher` / `unified_diff` are
modelled faithfully for the configuration used by the scripts
(`isjunk=None`, `autojunk=True`, `n=0`, `lineterm=""`), fallible Python
code (exceptions) is modelled with `Except String`.  External collaborators
(git, GitPython, `re`, `argparse`) are modelled at the interface the
scripts consume, as documented on each definition.
-/

/-- A Python `str` value, modelled as its list of characters. -/
abbrev PyStr := List Char

/-! ## Python string primitives -/

/-- Characters the Python `str.strip()` method removes (the characters for
which `str.isspace()` holds).  The ASCII / Latin-1 whitespace code points are
modelled; other Unicode space code points (which never occur in the inputs
of this development) are not. -/
def isPySpace (c : Char) : Bool :=
  c = ' ' ∨ c = '\t' ∨ c = '\n' ∨ c = '\r' ∨
  c = Char.ofNat 0x0b ∨ c = Char.ofNat 0x0c ∨
  c = Char.ofNat 0x1c ∨ c = Char.ofNat 0x1d ∨
  c = Char.ofNat 0x1e ∨ c = Char.ofNat 0x1f ∨
  c = Char.ofNat 0x85 ∨ c = Char.ofNat 0xa0

/-- Python `str.strip()` with no argument: remove whitespace from both ends. -/
def pyStripC (s : PyStr) : PyStr :=
  ((s.dropWhile isPySpace).reverse.dropWhile isPySpace).reverse

/-- Characters that terminate a line for Python `str.splitlines()`. -/
def isLineBoundary (c : Char) : Bool :=
  c = '\n' ∨ c = '\r' ∨
  c = Char.ofNat 0x0b ∨ c = Char.ofNat 0x0c ∨
  c = Char.ofNat 0x1c ∨ c = Char.ofNat 0x1d ∨
  c = Char.ofNat 0x1e ∨ c = Char.ofNat 0x85 ∨
  c = Char.ofNat 0x2028 ∨ c = Char.ofNat 0x2029

/-- Normalisation step for `pySplitlinesC`: Python treats the two-character
sequence `"\r\n"` as a single line boundary; merging each such pair into a
single `"\n"` (both are boundaries, so this is exactly the `"\r\n"` rule)
lets the splitter below treat every boundary as one character. -/
def crlfToLf : PyStr → PyStr
  | [] => []
  | [c] => [c]
  | c :: d :: rest =>
    if c = '\r' ∧ d = '\n' then '\n' :: crlfToLf rest
    else c :: crlfToLf (d :: rest)

/-- Worker for `pySplitlinesC` on `"\r\n"`-normalised input; `cur` is the
reversed current segment. -/
def splitlinesGo : PyStr → PyStr → List PyStr
  | cur, [] => if cur.isEmpty then [] else [cur.reverse]
  | cur, c :: rest =>
    if isLineBoundary c then cur.reverse :: splitlinesGo [] rest
    else splitlinesGo (c :: cur) rest

/-- Python `str.splitlines()` (no `keepends`): split at line boundaries,
`"\r\n"` counting as a single boundary, with no trailing empty segment. -/
def pySplitlinesC (s : PyStr) : List PyStr := splitlinesGo [] (crlfToLf s)

/-- Worker for `pySplitOnC`; `cur` is the reversed current field. -/
def splitOnGo (sep : Char) : PyStr → PyStr → List PyStr
  | cur, [] => [cur.reverse]
  | cur, c :: rest =>
    if c = sep then cur.reverse :: splitOnGo sep [] rest
    else splitOnGo sep (c :: cur) rest

/-- Python `str.split(sep)` with an explicit one-character separator:
split at every occurrence, keeping empty fields. -/
def pySplitOnC (sep : Char) (s : PyStr) : List PyStr := splitOnGo sep [] s

/-- Numeric value of a list of decimal digit characters. -/
def digitsVal (ds : PyStr) : Nat :=
  ds.foldl (fun acc c => acc * 10 + (c.toNat - '0'.toNat)) 0

/-- Python `int(s)` (base 10): strip whitespace, allow one optional sign,
then require a non-empty run of decimal digits; anything else raises
`ValueError`.  (Python additionally allows underscore digit separators,
which never occur in this development's inputs and are not modelled.)
The error message text is not modelled bit-exactly. -/
def pyIntC (s : PyStr) : Except String Int :=
  let t := pyStripC s
  let (sign, ds) : Int × PyStr :=
    match t with
    | '+' :: rest => (1, rest)
    | '-' :: rest => (-1, rest)
    | _ => (1, t)
  if ds ≠ [] ∧ ds.all Char.isDigit then
    Except.ok (sign * Int.ofNat (digitsVal ds))
  else
    Except.error "ValueError: invalid literal for int() with base 10"

/-- Python `str(n)` for a natural number. -/
def natStr (n : Nat) : PyStr := Nat.toDigits 10 n

/-- Python `str(n)` for an integer. -/
def intStr (n : Int) : PyStr :=
  if n < 0 then '-' :: natStr n.natAbs else natStr n.toNat

/-- ASCII lowercasing, as performed by Python `bytes.lower()`. -/
def asciiLower (s : PyStr) : PyStr :=
  s.map fun c => if 'A' ≤ c ∧ c ≤ 'Z' then Char.ofNat (c.toNat + 32) else c

/-- Containment of `t` as a contiguous subsequence of `s`
(Python `t in s` for strings/bytes). -/
def containsSeq (t : PyStr) : PyStr → Bool
  | [] => t.isPrefixOf []
  | c :: rest => t.isPrefixOf (c :: rest) || containsSeq t rest

/-! ## Python `repr` of a string

`collect_errors` formats errors with an f-string conversion `{pattern!r}`,
which renders the pattern through `repr`. -/

/-- Quote character `repr` chooses: a double quote when the string contains a
single quote but no double quote, else a single quote. -/
def pyQuote (p : PyStr) : Char :=
  if p.contains '\'' ∧ ¬ p.contains '"' then '"' else '\''

/-- Two lowercase hex digits of `n % 256`. -/
def hex2 (n : Nat) : PyStr := [Nat.digitChar (n / 16 % 16), Nat.digitChar (n % 16)]

/-- Rendering of one character inside a Python string `repr` with quote
character `q`.  Exact for ASCII (backslash/quote escaped, `\t` `\n` `\r`
named escapes, other control characters and `0x7f` as `\xHH`); characters
`≥ 0x80` are rendered literally, which matches Python for printable
characters — the non-printable non-ASCII escapes never arise in this
development and are not modelled. -/
def reprCharC (q c : Char) : PyStr :=
  if c = q ∨ c = '\\' then ['\\', c]
  else if c = '\t' then ['\\', 't']
  else if c = '\n' then ['\\', 'n']
  else if c = '\r' then ['\\', 'r']
  else if c.toNat < 0x20 ∨ c.toNat = 0x7f then '\\' :: 'x' :: hex2 c.toNat
  else [c]

/-- Python `repr` of a string. -/
def pyReprC (p : PyStr) : PyStr :=
  let q := pyQuote p
  q :: p.flatMap (reprCharC q) ++ [q]

/-! ## The `re.search` collaborator

`collect_errors` calls `re.search(pattern, line)` from the Python standard
library.  This development models `re.search` on the regex fragment its
claims exercise: literal characters, one optional leading `^` anchor, and
backslash-escaped literals (such as `\+`).  Other regex metacharacters are
treated as literals.  `re.search` scans for a match anywhere in the string;
with a leading `^` (and no MULTILINE flag) it matches only at the start. -/

/-- Unescape a pattern into its literal character tokens: a backslash makes
the following character literal. -/
def unescapeC : PyStr → PyStr
  | [] => []
  | '\\' :: c :: rest => c :: unescapeC rest
  | c :: rest => c :: unescapeC rest

/-- Model of `re.search(p, s) is not None` on the fragment described above. -/
def reSearchC (p s : PyStr) : Bool :=
  match p with
  | '^' :: rest => (unescapeC rest).isPrefixOf s
  | _ => containsSeq (unescapeC p) s

/-! ## `difflib.SequenceMatcher`, as used by `unified_diff`

`unified_diff` constructs `SequenceMatcher(None, a, b)`: `isjunk` is `None`,
so the junk set `bjunk` is always empty, and `autojunk` is on, so when
`len(b) >= 200` the "popular" elements (appearing more than
`len(b)//100 + 1` times) are dropped from the index `b2j`. -/

/-- Whether autojunk classifies element `x` of `b` as popular
(`__chain_b`). -/
def bpopular (b : List PyStr) (x : PyStr) : Bool :=
  200 ≤ b.length ∧ b.length / 100 + 1 < b.count x

/-- The `b2j` index: ascending positions of `x` in `b`, empty for popular
elements (`__chain_b` with `isjunk=None`). -/
def b2jList (b : List PyStr) (x : PyStr) : List Nat :=
  if bpopular b x then []
  else (List.range b.length).filter (fun j => b.getD j [] = x)

/-- Inner loop of `find_longest_match` over the candidate positions `js` of
`a[i]` in `b`: `prev` is the previous iteration's `j2len` mapping (as a total
function, defaulting to 0), `nj` the one being built, `best` the current
`(besti, bestj, bestsize)`.  A candidate `j < blo` is skipped (`continue`),
the first candidate `j ≥ bhi` stops the scan (`break`). -/
def innerGo (blo bhi i : Nat) :
    List Nat → (Nat → Nat) → (Nat → Nat) → Nat × Nat × Nat →
    (Nat → Nat) × (Nat × Nat × Nat)
  | [], _, nj, best => (nj, best)
  | j :: rest, prev, nj, best =>
    if j < blo then innerGo blo bhi i rest prev nj best
    else if bhi ≤ j then (nj, best)
    else
      let k := (if j = 0 then 0 else prev (j - 1)) + 1
      let nj' := fun x => if x = j then k else nj x
      let best' := if best.2.2 < k then (i + 1 - k, j + 1 - k, k) else best
      innerGo blo bhi i rest prev nj' best'

/-- Outer loop of `find_longest_match` over `i in range(alo, ahi)`. -/
def outerGo (a b : List PyStr) (blo bhi : Nat) :
    List Nat → (Nat → Nat) → Nat × Nat × Nat → Nat × Nat × Nat
  | [], _, best => best
  | i :: rest, j2len, best =>
    let r := innerGo blo bhi i (b2jList b (a.getD i [])) j2len (fun _ => 0) best
    outerGo a b blo bhi rest r.1 r.2

/-- First extension loop of `find_longest_match`: grow the match backwards
while the adjacent elements are equal.  (With `isjunk=None` the junk set is
empty, so `not isbjunk(...)` always holds and the condition is just
equality; the third and fourth extension loops, which extend over junk
elements, can never run and are omitted.)  Structural recursion on `besti`
mirrors the loop guard `besti > alo`. -/
def extBack (a b : List PyStr) (alo blo : Nat) :
    Nat → Nat → Nat → Nat × Nat × Nat
  | 0, bj, bs => (0, bj, bs)
  | bi + 1, bj, bs =>
    if alo < bi + 1 ∧ blo < bj ∧ a.getD bi [] = b.getD (bj - 1) [] then
      extBack a b alo blo bi (bj - 1) (bs + 1)
    else (bi + 1, bj, bs)

/-- Second extension loop of `find_longest_match`: grow the match forwards
while the adjacent elements are equal.  The loop guard requires
`besti + bestsize < ahi`, so the iteration count is bounded by
`ahi - (besti + bestsize)`; the `fuel` argument is initialised to exactly
that bound, keeping `fuel = ahi - (bi + bs)` in every recursive call, so the
`fuel = 0` base case coincides with the loop guard turning false. -/
def extFwdGo (a b : List PyStr) (ahi bhi bi bj : Nat) : Nat → Nat → Nat
  | 0, bs => bs
  | fuel + 1, bs =>
    if bi + bs < ahi ∧ bj + bs < bhi ∧ a.getD (bi + bs) [] = b.getD (bj + bs) [] then
      extFwdGo a b ahi bhi bi bj fuel (bs + 1)
    else bs

/-- `SequenceMatcher.find_longest_match(alo, ahi, blo, bhi)` with
`isjunk=None`: the dynamic-programming main loop followed by the two live
extension loops. -/
def findLongestMatch (a b : List PyStr) (alo ahi blo bhi : Nat) :
    Nat × Nat × Nat :=
  let m := outerGo a b blo bhi (List.range' alo (ahi - alo)) (fun _ => 0)
    (alo, blo, 0)
  let e1 := extBack a b alo blo m.1 m.2.1 m.2.2
  let bs := extFwdGo a b ahi bhi e1.1 e1.2.1 (ahi - (e1.1 + e1.2.2)) e1.2.2
  (e1.1, e1.2.1, bs)

/-- Recursive block collection of `get_matching_blocks`: the longest match
of the window, with recursion to the left and right sub-windows exactly
under the conditions Python's queue uses (`alo < i and blo < j`,
`i+k < ahi and j+k < bhi`); emitting in window order produces the sorted
list Python obtains by sorting.  The `fuel` argument only bounds the
recursion depth; `(ahi - alo) + (bhi - blo)` strictly decreases into each
sub-window (each guard forces both window ends strictly inside), so the
initial fuel `a.length + b.length + 1` is never exhausted. -/
def mbRec (a b : List PyStr) : Nat → Nat → Nat → Nat → Nat → List (Nat × Nat × Nat)
  | 0, _, _, _, _ => []
  | fuel + 1, alo, ahi, blo, bhi =>
    let r := findLongestMatch a b alo ahi blo bhi
    let i := r.1
    let j := r.2.1
    let k := r.2.2
    if k = 0 then []
    else
      (if alo < i ∧ blo < j then mbRec a b fuel alo i blo j else []) ++
      [(i, j, k)] ++
      (if i + k < ahi ∧ j + k < bhi then mbRec a b fuel (i + k) ahi (j + k) bhi else [])

/-- Adjacent-block collapsing at the end of `get_matching_blocks`. -/
def collapseGo : Nat → Nat → Nat → List (Nat × Nat × Nat) → List (Nat × Nat × Nat)
  | i1, j1, k1, [] => if k1 ≠ 0 then [(i1, j1, k1)] else []
  | i1, j1, k1, (i2, j2, k2) :: rest =>
    if i1 + k1 = i2 ∧ j1 + k1 = j2 then collapseGo i1 j1 (k1 + k2) rest
    else (if k1 ≠ 0 then [(i1, j1, k1)] else []) ++ collapseGo i2 j2 k2 rest

/-- `SequenceMatcher.get_matching_blocks()`: the recursively collected
blocks, adjacent ones collapsed, with the `(len(a), len(b), 0)` sentinel
appended. -/
def getMatchingBlocks (a b : List PyStr) : List (Nat × Nat × Nat) :=
  collapseGo 0 0 0 (mbRec a b (a.length + b.length + 1) 0 a.length 0 b.length) ++
    [(a.length, b.length, 0)]

/-- Opcode tags of `SequenceMatcher.get_opcodes()`. -/
inductive Tag where
  | eq : Tag
  | repl : Tag
  | del : Tag
  | ins : Tag
deriving DecidableEq

/-- One opcode `(tag, i1, i2, j1, j2)`. -/
structure Opcode where
  tag : Tag
  i1 : Nat
  i2 : Nat
  j1 : Nat
  j2 : Nat
deriving DecidableEq

/-- Loop of `get_opcodes()` over the matching blocks, carrying the covered
positions `i`, `j`. -/
def opcodesGo : Nat → Nat → List (Nat × Nat × Nat) → List Opcode
  | _, _, [] => []
  | i, j, (ai, bj, size) :: rest =>
    (if i < ai ∧ j < bj then [⟨Tag.repl, i, ai, j, bj⟩]
     else if i < ai then [⟨Tag.del, i, ai, j, bj⟩]
     else if j < bj then [⟨Tag.ins, i, ai, j, bj⟩]
     else []) ++
    (if size ≠ 0 then [⟨Tag.eq, ai, ai + size, bj, bj + size⟩] else []) ++
    opcodesGo (ai + size) (bj + size) rest

/-- `SequenceMatcher.get_opcodes()`. -/
def getOpcodes (a b : List PyStr) : List Opcode :=
  opcodesGo 0 0 (getMatchingBlocks a b)

/-- Apply `f` to the last element of a list. -/
def mapLast (f : α → α) : List α → List α
  | [] => []
  | [x] => [f x]
  | x :: y :: rest => x :: mapLast f (y :: rest)

/-- Whether a group is a single `equal` opcode (suppressed at the end of
`get_grouped_opcodes`). -/
def isSingleEq : List Opcode → Bool
  | [c] => c.tag = Tag.eq
  | _ => false

/-- Grouping loop of `get_grouped_opcodes(n)`: a large `equal` range ends the
current group (trimmed to `n` context lines) and starts the next. -/
def groupGo (n : Nat) : List Opcode → List Opcode → List (List Opcode)
  | group, [] => if group ≠ [] ∧ isSingleEq group = false then [group] else []
  | group, c :: rest =>
    if c.tag = Tag.eq ∧ n + n < c.i2 - c.i1 then
      (group ++ [⟨Tag.eq, c.i1, min c.i2 (c.i1 + n), c.j1, min c.j2 (c.j1 + n)⟩]) ::
        groupGo n [⟨Tag.eq, max c.i1 (c.i2 - n), c.i2, max c.j1 (c.j2 - n), c.j2⟩] rest
    else groupGo n (group ++ [c]) rest

/-- `SequenceMatcher.get_grouped_opcodes(n)`: empty opcode lists are replaced
by a dummy `equal` opcode, leading and trailing `equal` opcodes are trimmed
to `n` context lines, then the grouping loop runs. -/
def getGroupedOpcodes (a b : List PyStr) (n : Nat) : List (List Opcode) :=
  let codes0 := getOpcodes a b
  let codes1 := if codes0 = [] then [⟨Tag.eq, 0, 1, 0, 1⟩] else codes0
  let codes2 :=
    match codes1 with
    | [] => []
    | c :: rest =>
      (if c.tag = Tag.eq then
        ⟨Tag.eq, max c.i1 (c.i2 - n), c.i2, max c.j1 (c.j2 - n), c.j2⟩
       else c) :: rest
  let codes3 := mapLast
    (fun c => if c.tag = Tag.eq then
        ⟨Tag.eq, c.i1, min c.i2 (c.i1 + n), c.j1, min c.j2 (c.j1 + n)⟩
      else c) codes2
  groupGo n [] codes3

/-- Python slice `l[i:j]` for `0 ≤ i ≤ j`. -/
def pySlice (l : List α) (i j : Nat) : List α := (l.drop i).take (j - i)

/-- `_format_range_unified(start, stop)`. -/
def fmtRange (start stop : Nat) : PyStr :=
  let length := stop - start
  if length = 1 then natStr (start + 1)
  else if length = 0 then natStr start ++ [',', '0']
  else natStr (start + 1) ++ [','] ++ natStr length

/-- The `@@ -... +... @@` header line of one hunk (with `lineterm=""`). -/
def hunkHeaderLine (g : List Opcode) : PyStr :=
  let first := g.headD ⟨Tag.eq, 0, 0, 0, 0⟩
  let last := g.getLastD ⟨Tag.eq, 0, 0, 0, 0⟩
  ('@' :: '@' :: ' ' :: '-' :: fmtRange first.i1 last.i2) ++
    (' ' :: '+' :: fmtRange first.j1 last.j2) ++ [' ', '@', '@']

/-- The body lines of one hunk: `" "`-prefixed equal lines, `"-"`-prefixed
old lines, `"+"`-prefixed new lines. -/
def hunkBodyLines (a b : List PyStr) (g : List Opcode) : List PyStr :=
  g.flatMap fun c =>
    (if c.tag = Tag.eq then (pySlice a c.i1 c.i2).map (' ' :: ·) else []) ++
    (if c.tag = Tag.repl ∨ c.tag = Tag.del then (pySlice a c.i1 c.i2).map ('-' :: ·) else []) ++
    (if c.tag = Tag.repl ∨ c.tag = Tag.ins then (pySlice b c.j1 c.j2).map ('+' :: ·) else [])

/-- `difflib.unified_diff(a, b, lineterm="", n=0)` as called by
`collect_errors`: with the default empty `fromfile`/`tofile` the two file
header lines are `"--- "` and `"+++ "`, emitted before the first hunk only;
each hunk contributes its `@@` header and its body lines. -/
def unifiedDiffLines (a b : List PyStr) : List PyStr :=
  match getGroupedOpcodes a b 0 with
  | [] => []
  | g :: gs =>
    ['-', '-', '-', ' '] :: ['+', '+', '+', ' '] ::
      (g :: gs).flatMap (fun grp => hunkHeaderLine grp :: hunkBodyLines a b grp)

/-! ## `check_for_markers.py` -/

/-- Python `line.startswith(p)`. -/
def startsWithC (p s : PyStr) : Bool := p.isPrefixOf s

/-- `parse_line_number` (character-list level): reject lines not starting
with `"@@"`, reject lines that do not split into exactly four
space-separated fields, else return `int(parts[2].split(",")[0])`.  Raised
`ValueError`s are modelled as `Except.error`. -/
def parse_line_number_core (line : PyStr) : Except String Int :=
  if startsWithC ['@', '@'] line = false then
    Except.error "ValueError: Not a unified-diff header"
  else
    let parts := pySplitOnC ' ' line
    if parts.length ≠ 4 then
      Except.error "ValueError: Not a unified-diff header"
    else
      pyIntC ((pySplitOnC ',' (parts.getD 2 [])).getD 0 [])

/-- `parse_line_number`, taking and informally returning Python values at
the `String` level. -/
def parse_line_number (line : String) : Except String Int :=
  parse_line_number_core line.data

/-- The error string `f"Error pattern {pattern!r} detected at
{filename}:{line_number}"` (character-list level). -/
def mkErrorC (pattern fn : PyStr) (n : Int) : PyStr :=
  ('E' :: 'r' :: 'r' :: 'o' :: 'r' :: ' ' :: 'p' :: 'a' :: 't' :: 't' :: 'e' :: 'r' :: 'n' :: ' ' :: pyReprC pattern) ++
    (' ' :: 'd' :: 'e' :: 't' :: 'e' :: 'c' :: 't' :: 'e' :: 'd' :: ' ' :: 'a' :: 't' :: ' ' :: fn) ++
    (':' :: intStr n)

/-- The error string at the `String` level. -/
def mkError (pattern fn : String) (n : Int) : String :=
  String.mk (mkErrorC pattern.data fn.data n)

/-- One iteration of the `for line in diff_result` loop of `collect_errors`:
a line starting with `"@@"` resets the counter to `parse_line_number(line)`
(whose `ValueError` would propagate); a line not starting with `"+"`, or
stripping to `"+++"`, is skipped; otherwise every pattern is searched
against the raw diff line (prefix included) in order, each match appending
one formatted error, and then the counter advances by one.  The pattern
list is `Option`-valued because `main` passes `args.pattern`, which is
`None` when no `--pattern` option was supplied; iterating over `None`
raises `TypeError` (message text not modelled bit-exactly). -/
def scanStep (pats : Option (List PyStr)) (fn : PyStr) (acc : List PyStr × Int)
    (line : PyStr) : Except String (List PyStr × Int) :=
  match (if startsWithC ['@', '@'] line then parse_line_number_core line
         else Except.ok acc.2) with
  | Except.error e => Except.error e
  | Except.ok n1 =>
    if startsWithC ['+'] line = false ∨ pyStripC line = ['+', '+', '+'] then
      Except.ok (acc.1, n1)
    else
      match pats with
      | none => Except.error "TypeError: NoneType object is not iterable"
      | some ps =>
        let fresh := (ps.filter (fun p => reSearchC p line)).map
          (fun p => mkErrorC p fn n1)
        Except.ok (acc.1 ++ fresh,
          if startsWithC ['+'] line then n1 + 1 else n1)

/-- The full walk of `collect_errors` over the diff lines. -/
def scanLines (pats : Option (List PyStr)) (fn : PyStr) :
    List PyStr → List PyStr × Int → Except String (List PyStr × Int)
  | [], acc => Except.ok acc
  | line :: rest, acc =>
    match scanStep pats fn acc line with
    | Except.error e => Except.error e
    | Except.ok acc' => scanLines pats fn rest acc'

/-- `collect_errors(filename, new_data, old_data, error_patterns)` at the
character-list level, with the dynamically possible `None` pattern list:
diff the split lines of the old and new data with
`unified_diff(..., lineterm="", n=0)` and walk the result starting from
`line_number = 1`. -/
def collect_errors_core (fn new_data old_data : PyStr)
    (error_patterns : Option (List PyStr)) : Except String (List PyStr) :=
  match scanLines error_patterns fn
      (unifiedDiffLines (pySplitlinesC old_data) (pySplitlinesC new_data))
      ([], 1) with
  | Except.error e => Except.error e
  | Except.ok acc => Except.ok acc.1

/-- `collect_errors` at its annotated type (`error_patterns: list[str]`),
stated over Python `str` values modelled as `String`. -/
def collect_errors (fn new_data old_data : String)
    (error_patterns : List String) : Except String (List String) :=
  match collect_errors_core fn.data new_data.data old_data.data
      (some (error_patterns.map String.data)) with
  | Except.error e => Except.error e
  | Except.ok errs => Except.ok (errs.map String.mk)

/-- Python `str.splitlines` at the `String` level, for stating claims. -/
def pySplitlines (s : String) : List String :=
  (pySplitlinesC s.data).map String.mk

/-- Python `str.split(" ")` at the `String` level, for stating claims. -/
def pySplitSpace (s : String) : List String :=
  (pySplitOnC ' ' s.data).map String.mk

/-- Model of `re.search(p, s) is not None` at the `String` level. -/
def reSearch (p s : String) : Bool := reSearchC p.data s.data

/-! ## The driver (`main` of `check_for_markers.py`)

`main` calls `repo.index.diff(against)` (GitPython) and iterates over the
resulting `Diff` objects, reading the staged (new) text from `a_blob` and
the old text from `b_blob`.  The GitPython collaborator is modelled at the
interface `main` consumes: a diff entry carries two optional blobs and a
path; a blob has an object id (`binsha`) and either decodable text content
or none (undecodable / binary).  GitPython `Object` equality compares
`binsha`; `None == None` is true and `Object == None` is false. -/

/-- A git blob as consumed by `read_blob`: object identity plus its content,
`none` when the raw bytes do not decode as UTF-8. -/
structure Blob where
  sha : Nat
  text : Option String
deriving DecidableEq

/-- One GitPython `Diff` entry as consumed by `main`. -/
structure DiffEntry where
  a_blob : Option Blob
  b_blob : Option Blob
  b_path : Option String
deriving DecidableEq

/-- `read_blob`: empty string for a missing blob, the decoded text
otherwise, empty string when decoding fails. -/
def read_blob : Option Blob → String
  | none => ""
  | some b => b.text.getD ""

/-- The Python `==` comparison `diff.a_blob == diff.b_blob`. -/
def blobEqPy : Option Blob → Option Blob → Bool
  | none, none => true
  | some x, some y => x.sha = y.sha
  | _, _ => false

/-- The per-file body of `main`'s loop: skip when the blobs compare equal or
`b_blob` is `None`; otherwise run `collect_errors` with the new text read
from `a_blob`, the old text read from `b_blob`, and the file labelled
`diff.b_path or ""`. -/
def processDiff (pats : Option (List String)) (d : DiffEntry) :
    Except String (List String) :=
  if blobEqPy d.a_blob d.b_blob ∨ d.b_blob = none then Except.ok []
  else
    collect_errors_core (d.b_path.getD "").data (read_blob d.a_blob).data
        (read_blob d.b_blob).data (pats.map (List.map String.data))
      |>.map (List.map String.mk)

/-- Error accumulation of `main` over the diff entries. -/
def mainErrors (pats : Option (List String)) :
    List DiffEntry → Except String (List String)
  | [] => Except.ok []
  | d :: rest =>
    match processDiff pats d with
    | Except.error e => Except.error e
    | Except.ok errs =>
      match mainErrors pats rest with
      | Except.error e => Except.error e
      | Except.ok more => Except.ok (errs ++ more)

/-- `main`'s outcome on a list of diff entries: exit status 1 when any
errors were collected, 0 otherwise, with uncaught Python exceptions as
`Except.error`.  `pats` is `args.pattern`: `none` when no `--pattern`
option was supplied (argparse `action="append"` defaults to `None`). -/
def main_run (pats : Option (List String)) (entries : List DiffEntry) :
    Except String Nat :=
  match mainErrors pats entries with
  | Except.error e => Except.error e
  | Except.ok errs => Except.ok (if errs ≠ [] then 1 else 0)

/-! ## `check_for_xxx.py`

The simplified variant runs `git diff --cached <against>` (git itself is an
external collaborator; its output is the function's input here), keeps
every output line whose ASCII-lowercased form contains `# xxx`, prints the
matches, and returns 1 when any line matched, else 0. -/

/-- The matching lines of `check_for_xxx.main`. -/
def xxxMatching (diffOutput : List String) : List String :=
  diffOutput.filter fun l => containsSeq "# xxx".data (asciiLower l.data)

/-- The exit status of `check_for_xxx.main` given the `git diff --cached`
output lines. -/
def xxxMain (diffOutput : List String) : Nat :=
  if xxxMatching diffOutput ≠ [] then 1 else 0

/-! ## Further definitions used to state and prove the claims -/

/-- Decidable equality of `Except` values, for evaluating concrete runs. -/
instance {ε α : Type} [DecidableEq ε] [DecidableEq α] : DecidableEq (Except ε α)
  | Except.error e, Except.error f =>
    if h : e = f then isTrue (by rw [h]) else isFalse (by intro hc; cases hc; exact h rfl)
  | Except.ok a, Except.ok b =>
    if h : a = b then isTrue (by rw [h]) else isFalse (by intro hc; cases hc; exact h rfl)
  | Except.error _, Except.ok _ => isFalse (by intro hc; cases hc)
  | Except.ok _, Except.error _ => isFalse (by intro hc; cases hc)

/-- Python `str.strip()` at the `String` level, for stating claims. -/
def pyStrip (s : String) : String := String.mk (pyStripC s.data)

/-- Python `s.startswith(p)` at the `String` level, for stating claims. -/
def pyStartsWith (s p : String) : Bool := startsWithC p.data s.data

/-- The chain-length function underlying the dynamic-programming loop of
`find_longest_match` on the full window of a sequence against itself:
`chainK l i j` is the value the loop's `j2len` accumulator assigns to
position `j` during outer iteration `i` (0 when `j` is not a candidate for
`a[i]`).  It is used to prove that on identical sequences the running best
match always lies on the diagonal. -/
def chainK (l : List PyStr) : Nat → Nat → Nat
  | 0, j => if j ∈ b2jList l (l.getD 0 []) then 1 else 0
  | i + 1, j =>
    if j ∈ b2jList l (l.getD (i + 1) []) then
      (match j with
       | 0 => 1
       | j' + 1 => chainK l i j' + 1)
    else 0

/-! ## Helper lemmas -/

theorem startsWith_cons (c : Char) (l : PyStr) (d : Char) :
    startsWithC [d] (c :: l) = true ↔ c = d := by
  simp [startsWithC, List.isPrefixOf]
  exact ⟨fun h => h.symm, fun h => h.symm⟩

theorem mem_pySlice {α : Type} {x : α} {l : List α} {i j : Nat}
    (h : x ∈ pySlice l i j) : x ∈ l :=
  List.drop_subset i l (List.take_subset _ _ h)

theorem plus_line_shape (a b : List PyStr) (line : PyStr)
    (hmem : line ∈ unifiedDiffLines a b)
    (hplus : startsWithC ['+'] line = true) :
    line = ['+', '+', '+', ' '] ∨ ∃ l ∈ b, line = '+' :: l := by
  unfold unifiedDiffLines at hmem
  rcases hg : getGroupedOpcodes a b 0 with _ | ⟨g, gs⟩ <;> rw [hg] at hmem
  · simp at hmem
  simp only [List.mem_cons, List.mem_flatMap] at hmem
  rcases hmem with h1 | h2 | ⟨grp, hgrp, hline⟩
  · rw [h1] at hplus; simp [startsWithC, List.isPrefixOf] at hplus
  · exact Or.inl h2
  rcases hline with hhd | hbody
  · rw [hhd] at hplus
    unfold hunkHeaderLine at hplus
    simp [startsWithC, List.isPrefixOf] at hplus
  simp only [hunkBodyLines, List.mem_flatMap, List.mem_append] at hbody
  rcases hbody with ⟨c, _, hc⟩
  rcases hc with (hc | hc) | hc
  · split at hc
    · rcases List.mem_map.1 hc with ⟨x, _, rfl⟩
      rw [startsWith_cons] at hplus
      cases hplus
    · cases hc
  · split at hc
    · rcases List.mem_map.1 hc with ⟨x, _, rfl⟩
      rw [startsWith_cons] at hplus
      cases hplus
    · cases hc
  · split at hc
    · rcases List.mem_map.1 hc with ⟨x, hx, rfl⟩
      exact Or.inr ⟨x, mem_pySlice hx, rfl⟩
    · cases hc

theorem scanLines_ok_shape (ps : List PyStr) (fn : PyStr) :
    ∀ (lines : List PyStr) (acc res : List PyStr × Int),
      scanLines (some ps) fn lines acc = Except.ok res →
      ∀ e ∈ res.1, e ∈ acc.1 ∨
        ∃ line ∈ lines, startsWithC ['+'] line = true ∧
          pyStripC line ≠ ['+', '+', '+'] ∧
          ∃ p ∈ ps, reSearchC p line = true ∧ ∃ m : Int, e = mkErrorC p fn m := by
  intro lines
  induction lines with
  | nil =>
    intro acc res h e he
    cases h
    exact Or.inl he
  | cons line rest ih =>
    intro acc res h e he
    unfold scanLines at h
    rcases hstep : scanStep (some ps) fn acc line with e1 | acc1 <;> rw [hstep] at h
    · cases h
    rcases ih acc1 res h e he with hin | ⟨line', hmem, hrest⟩
    · unfold scanStep at hstep
      rcases hhd : (if startsWithC ['@', '@'] line then parse_line_number_core line
          else Except.ok acc.2) with e2 | n1 <;> rw [hhd] at hstep
      · cases hstep
      dsimp only at hstep
      by_cases hcond : (startsWithC ['+'] line = false ∨ pyStripC line = ['+', '+', '+'])
      · rw [if_pos hcond] at hstep
        cases hstep
        exact Or.inl hin
      · rw [if_neg hcond] at hstep
        cases hstep
        push_neg at hcond
        rcases List.mem_append.1 hin with hold | hfresh
        · exact Or.inl hold
        rcases List.mem_map.1 hfresh with ⟨p, hp, rfl⟩
        rcases List.mem_filter.1 hp with ⟨hps, hsearch⟩
        refine Or.inr ⟨line, List.mem_cons_self _ _, ?_, hcond.2, p, hps, hsearch, n1, rfl⟩
        cases hsw : startsWithC ['+'] line
        · exact absurd hsw hcond.1
        · rfl
    · exact Or.inr ⟨line', List.mem_cons_of_mem _ hmem, hrest⟩

theorem collect_errors_ok_shape (fn new_data old_data : String)
    (pats : List String) (res : List String)
    (h : collect_errors fn new_data old_data pats = Except.ok res) :
    ∀ e ∈ res, ∃ p ∈ pats, ∃ l ∈ pySplitlines new_data,
      reSearch p ("+" ++ l) = true ∧ ∃ m : Int, e = mkError p fn m := by
  intro e he
  unfold collect_errors at h
  rcases hc : collect_errors_core fn.data new_data.data old_data.data
      (some (pats.map String.data)) with e1 | errs <;> rw [hc] at h
  · cases h
  cases h
  rcases List.mem_map.1 he with ⟨ec, hec, rfl⟩
  unfold collect_errors_core at hc
  rcases hs : scanLines (some (pats.map String.data)) fn.data
      (unifiedDiffLines (pySplitlinesC old_data.data) (pySplitlinesC new_data.data))
      ([], 1) with e2 | acc <;> rw [hs] at hc
  · cases hc
  cases hc
  rcases scanLines_ok_shape _ _ _ _ _ hs ec hec with hnil | hsh
  · cases hnil
  rcases hsh with ⟨line, hline, hplus, hstrip, pc, hpc, hsearch, m, rfl⟩
  rcases plus_line_shape _ _ _ hline hplus with hdr | ⟨lc, hlc, rfl⟩
  · rw [hdr] at hstrip
    exact absurd (by decide) hstrip
  rcases List.mem_map.1 hpc with ⟨p, hp, rfl⟩
  refine ⟨p, hp, String.mk lc, List.mem_map_of_mem _ hlc, ?_, m, rfl⟩
  show reSearchC p.data ("+" ++ String.mk lc).data = true
  have : ("+" ++ String.mk lc).data = '+' :: lc := by
    simp [String.data_append]
  rw [this]
  exact hsearch

theorem startsWithC_two {c d : Char} {hdr : PyStr}
    (h : startsWithC [c, d] hdr = true) : ∃ t, hdr = c :: d :: t := by
  cases hdr with
  | nil => simp [startsWithC, List.isPrefixOf] at h
  | cons x rest =>
    cases rest with
    | nil => simp [startsWithC, List.isPrefixOf] at h
    | cons y t =>
      simp [startsWithC, List.isPrefixOf] at h
      exact ⟨t, by rw [h.1, h.2]⟩

theorem scanStep_header (pats : Option (List PyStr)) (fn : PyStr)
    (acc : List PyStr × Int) (hdr : PyStr) (n1 : Int)
    (h1 : startsWithC ['@', '@'] hdr = true)
    (h2 : parse_line_number_core hdr = Except.ok n1) :
    scanStep pats fn acc hdr = Except.ok (acc.1, n1) := by
  obtain ⟨t, rfl⟩ := startsWithC_two h1
  unfold scanStep
  rw [if_pos h1, h2]
  dsimp only
  rw [if_pos (Or.inl (by simp [startsWithC, List.isPrefixOf]))]

theorem scanLines_header_reset (pats : Option (List PyStr)) (fn hdr : PyStr)
    (rest : List PyStr) (acc : List PyStr × Int) (n1 : Int)
    (h1 : startsWithC ['@', '@'] hdr = true)
    (h2 : parse_line_number_core hdr = Except.ok n1) :
    scanLines pats fn (hdr :: rest) acc = scanLines pats fn rest (acc.1, n1) := by
  have hu : scanLines pats fn (hdr :: rest) acc =
      match scanStep pats fn acc hdr with
      | Except.error e => Except.error e
      | Except.ok acc' => scanLines pats fn rest acc' := rfl
  rw [hu, scanStep_header pats fn acc hdr n1 h1 h2]

/-- Claim C1 (amended): only lines added in the new version can be flagged
by the canonical scanner `collect_errors` — every reported error arises from
a pattern matching the `"+"`-prefixed form of a line of the new text — and
for old `"# xxx\n"`, new `""`, pattern `"# xxx"` the canonical scanner
reports nothing; the simplified `check_for_xxx` script, however, flags any
diff output line containing the marker case-insensitively, so a pure
removal of `"# xxx"` (whose diff contains the line `"-# xxx"`) makes it
exit with status 1. -/
theorem c1_only_additions_flagged :
    (∀ (fn new_data old_data : String) (pats : List String) (res : List String),
      collect_errors fn new_data old_data pats = Except.ok res →
      ∀ e ∈ res, ∃ p ∈ pats, ∃ l ∈ pySplitlines new_data,
        reSearch p ("+" ++ l) = true ∧ ∃ m : Int, e = mkError p fn m) ∧
    collect_errors "f" "" "# xxx\n" ["# xxx"] = Except.ok [] ∧
    xxxMain ((unifiedDiffLines (pySplitlinesC "# xxx\n".data)
      (pySplitlinesC "".data)).map String.mk) = 1 :=
  ⟨collect_errors_ok_shape, rfl, rfl⟩

/-- Claim C1, counterexample to the original statement: the claim asserts
that for BOTH hook scripts a removed marker line is never flagged, but
`check_for_xxx.main` matches every `git diff` output line containing
`# xxx`, and the diff of old `"# xxx\n"` against new `""` contains the
removal line `"-# xxx"`, so the simplified script exits with failure
status 1 (the canonical scanner, by contrast, reports nothing). -/
theorem c1_xxx_flags_removal :
    xxxMain ((unifiedDiffLines (pySplitlinesC "# xxx\n".data)
      (pySplitlinesC "".data)).map String.mk) = 1 ∧
    (unifiedDiffLines (pySplitlinesC "# xxx\n".data)
      (pySplitlinesC "".data)).map String.mk =
      ["--- ", "+++ ", "@@ -1 +0,0 @@", "-# xxx"] ∧
    collect_errors "f" "" "# xxx\n" ["# xxx"] = Except.ok [] :=
  ⟨rfl, rfl, rfl⟩

/-- Claim C1, witness: the general part of `c1_only_additions_flagged`
instantiated at a concrete scan that reports one error. -/
theorem c1_witness :
    ∃ p ∈ ["# xxx"], ∃ l ∈ pySplitlines "x # xxx\n",
      reSearch p ("+" ++ l) = true ∧
      ∃ m : Int, "Error pattern '# xxx' detected at f:1" = mkError p "f" m :=
  c1_only_additions_flagged.1 "f" "x # xxx\n" "" ["# xxx"]
    ["Error pattern '# xxx' detected at f:1"] (by decide)
    "Error pattern '# xxx' detected at f:1" (List.mem_singleton.mpr rfl)

/-- Claim C5 (amended): every error string has exactly the form
`Error pattern <R> detected at <file>:<line>` where `<R>` is the Python
`repr` of the pattern source text (surrounded by quotes, with quotes and
backslashes escaped) — not the bare pattern text — as captured by
`mkError`; concretely, pattern `# xxx` is rendered as `'# xxx'`. -/
theorem c5_error_format :
    (∀ (fn new_data old_data : String) (pats : List String) (res : List String),
      collect_errors fn new_data old_data pats = Except.ok res →
      ∀ e ∈ res, ∃ p ∈ pats, ∃ m : Int, e = mkError p fn m) ∧
    mkError "# xxx" "f" 1 = "Error pattern '# xxx' detected at f:1" ∧
    collect_errors "f" "# xxx\n" "" ["# xxx"] =
      Except.ok [mkError "# xxx" "f" 1] := by
  refine ⟨?_, rfl, rfl⟩
  intro fn new_data old_data pats res h e he
  rcases collect_errors_ok_shape fn new_data old_data pats res h e he with
    ⟨p, hp, _, _, _, m, hm⟩
  exact ⟨p, hp, m, hm⟩

/-- Claim C5, counterexample to the original statement: the pattern is not
inserted literally with no surrounding quoting — the f-string conversion
`{pattern!r}` renders it through `repr`, so `# xxx` appears as `'# xxx'`. -/
theorem c5_counterexample :
    collect_errors "f" "# xxx\n" "" ["# xxx"] =
      Except.ok ["Error pattern '# xxx' detected at f:1"] ∧
    ("Error pattern '# xxx' detected at f:1" : String) ≠
      "Error pattern # xxx detected at f:1" :=
  ⟨rfl, by decide⟩

/-- Claim C5, witness: the general part of `c5_error_format` instantiated
at a concrete scan. -/
theorem c5_witness :
    ∃ p ∈ ["# xxx"], ∃ m : Int,
      "Error pattern '# xxx' detected at f:1" = mkError p "f" m :=
  c5_error_format.1 "f" "# xxx\n" "" ["# xxx"]
    ["Error pattern '# xxx' detected at f:1"] (by decide)
    "Error pattern '# xxx' detected at f:1" (List.mem_singleton.mpr rfl)

/-- Claim C6: with no `--pattern` option, `args.pattern` is `None`
(argparse `action="append"` has default `None`, not `[]`), and
`collect_errors` iterates `for pattern in error_patterns` — so as soon as
one changed file has one added line, the hook raises
`TypeError: 'NoneType' object is not iterable` instead of succeeding with
status 0: here a single staged file whose content went from `""` to
`"x\n"` crashes the run. -/
theorem c6_none_patterns_crash :
    main_run none [⟨some ⟨1, some "x\n"⟩, some ⟨2, some ""⟩, some "f"⟩] =
      Except.error "TypeError: NoneType object is not iterable" ∧
    collect_errors_core "f".data "x\n".data "".data none =
      Except.error "TypeError: NoneType object is not iterable" :=
  ⟨rfl, rfl⟩

/-- Claim C9: a diff entry whose old-side blob (`b_blob`) is absent — a
newly added file — is skipped by `main`'s guard `diff.b_blob is None`, so
its added lines are never scanned, even though `collect_errors` on the same
content would report a marker: the guard hits the wrong side, since
`new_data` is read from `a_blob` and `old_data` from `b_blob`. -/
theorem c9_new_file_skipped :
    processDiff (some ["# xxx"]) ⟨some ⟨1, some "# xxx\n"⟩, none, some "f"⟩ =
      Except.ok [] ∧
    collect_errors "f" "# xxx\n" "" ["# xxx"] =
      Except.ok ["Error pattern '# xxx' detected at f:1"] ∧
    (∀ (pats : Option (List String)) (d : DiffEntry),
      blobEqPy d.a_blob d.b_blob = true → processDiff pats d = Except.ok []) :=
  ⟨rfl, rfl, fun _ d h => by unfold processDiff; rw [if_pos (Or.inl h)]⟩

/-- Claim C2, counterexample to the universal part of the claim: an added
line whose content is `"++"` becomes the diff line `"+++"`, which the
walk's `line.strip() == "+++"` guard (meant for the `"+++ "` file header)
skips without advancing the counter — so the following added line
`"x # xxx"`, the second line of the new text, is reported at line 1. -/
theorem c2_counterexample :
    collect_errors "f" "++\nx # xxx\n" "" ["# xxx"] =
      Except.ok ["Error pattern '# xxx' detected at f:1"] ∧
    pySplitlines "++\nx # xxx\n" = ["++", "x # xxx"] :=
  ⟨rfl, by decide⟩

/-- Claim C3, counterexample: the diff entry `"+++"` (produced for an added
line with content `"++"`) is prefixed as an addition and matched by the
pattern `\+`, yet the walk neither tests it (no error appears) nor
advances the line counter (it stays at 5). -/
theorem c3_counterexample :
    scanLines (some ["\\+".data]) "f".data ["+++".data] ([], 5) =
      Except.ok ([], 5) ∧
    startsWithC ['+'] "+++".data = true ∧
    reSearchC "\\+".data "+++".data = true :=
  ⟨rfl, rfl, rfl⟩

/-- Claim C8, counterexample: the added line `"++"` is matched by the
configured pattern `\+` (its diff entry `"+++"` matches), so the claim
demands exactly one error, but the `strip() == "+++"` guard skips the
line entirely and zero errors are produced. -/
theorem c8_counterexample :
    collect_errors "f" "++\n" "" ["\\+"] = Except.ok [] ∧
    reSearch "\\+" ("+" ++ "++") = true :=
  ⟨rfl, rfl⟩

/-- Claim C2 (amended): in the concrete example the scanner reports exactly
one error, at line 3 of the new text; across multiple disjoint hunks the
running counter is reset at every hunk header to the header's new-file
start (second example: errors at lines 2 and 8, not monotonically
continued); and in general a hunk-header line resets the walk's counter to
the parsed new-file start regardless of the counter's previous value.
(The original universal statement — that every reported line number is the
1-based position of the matched added line — fails when an earlier added
line of the same hunk strips to `"+++"`, see the counterexample.) -/
theorem c2_line_numbers :
    collect_errors "f" "a\nb\n# xxx\nc\n" "a\nb\nc\n" ["# xxx"] =
      Except.ok ["Error pattern '# xxx' detected at f:3"] ∧
    collect_errors "f" "a\n# xxx\nb\nc\nd\ne\nf\n# xxx\ng\nh\n"
      "a\nb\nc\nd\ne\nf\ng\nh\n" ["# xxx"] =
      Except.ok ["Error pattern '# xxx' detected at f:2",
        "Error pattern '# xxx' detected at f:8"] ∧
    (∀ (pats : Option (List PyStr)) (fn hdr : PyStr) (rest : List PyStr)
      (acc : List PyStr × Int) (n1 : Int),
      startsWithC ['@', '@'] hdr = true →
      parse_line_number_core hdr = Except.ok n1 →
      scanLines pats fn (hdr :: rest) acc = scanLines pats fn rest (acc.1, n1)) :=
  ⟨rfl, rfl, scanLines_header_reset⟩

/-- Claim C2, witness: the reset part of `c2_line_numbers` applied to the
header `@@ -6,0 +8 @@` with the counter previously at 99. -/
theorem c2_witness :
    scanLines (some ["# xxx".data]) "f".data
      ("@@ -6,0 +8 @@".data :: ["+# xxx".data]) ([], 99) =
    scanLines (some ["# xxx".data]) "f".data ["+# xxx".data] ([], 8) :=
  c2_line_numbers.2.2 (some ["# xxx".data]) "f".data "@@ -6,0 +8 @@".data
    ["+# xxx".data] ([], 99) 8 (by decide) (by decide)

theorem scanStep_plus (ps : List PyStr) (fn : PyStr) (acc : List PyStr × Int)
    (line : PyStr)
    (hp : startsWithC ['+'] line = true)
    (hs : pyStripC line ≠ ['+', '+', '+'])
    (hh : startsWithC ['@', '@'] line = false) :
    scanStep (some ps) fn acc line =
      Except.ok (acc.1 ++ (ps.filter (fun p => reSearchC p line)).map
        (fun p => mkErrorC p fn acc.2), acc.2 + 1) := by
  unfold scanStep
  rw [if_neg (by rw [hh]; exact Bool.false_ne_true)]
  dsimp only
  have hcond : ¬(startsWithC ['+'] line = false ∨ pyStripC line = ['+', '+', '+']) := by
    rintro (hc | hc)
    · rw [hp] at hc; cases hc
    · exact hs hc
  rw [if_neg hcond, hp, if_pos rfl]

/-- Claim C3 (amended): while the walk stays inside hunks (no header
lines), an addition-prefixed diff entry is tested against every pattern and
then advances the new-file counter by exactly one — except an entry whose
`strip()` is `"+++"` (e.g. the entry for added content `"++"`, clashing
with the `"+++ "` file header), which is skipped entirely and consumes no
line number; so the counter grows by exactly the number of `"+"`-prefixed
entries not stripping to `"+++"`. -/
theorem c3_counter_advance :
    (∀ (ps : List PyStr) (fn : PyStr) (acc : List PyStr × Int) (line : PyStr),
      startsWithC ['+'] line = true →
      pyStripC line ≠ ['+', '+', '+'] →
      startsWithC ['@', '@'] line = false →
      scanStep (some ps) fn acc line =
        Except.ok (acc.1 ++ (ps.filter (fun p => reSearchC p line)).map
          (fun p => mkErrorC p fn acc.2), acc.2 + 1)) ∧
    (∀ (ps : List PyStr) (fn : PyStr) (lines : List PyStr)
      (acc res : List PyStr × Int),
      (∀ l ∈ lines, startsWithC ['@', '@'] l = false) →
      scanLines (some ps) fn lines acc = Except.ok res →
      res.2 = acc.2 + (lines.countP (fun l =>
        startsWithC ['+'] l && !(pyStripC l == ['+', '+', '+'])) : Int)) := by
  refine ⟨scanStep_plus, ?_⟩
  intro ps fn lines
  induction lines with
  | nil =>
    intro acc res _ h
    cases h
    simp
  | cons line rest ih =>
    intro acc res hhd h
    have hline := hhd line (List.mem_cons_self _ _)
    have hrest := fun l hl => hhd l (List.mem_cons_of_mem _ hl)
    unfold scanLines at h
    rcases hstep : scanStep (some ps) fn acc line with e1 | acc1 <;>
      rw [hstep] at h
    · cases h
    have hres := ih acc1 res hrest h
    unfold scanStep at hstep
    rw [hline, if_neg Bool.false_ne_true] at hstep
    dsimp only at hstep
    by_cases hc : (startsWithC ['+'] line = false ∨ pyStripC line = ['+', '+', '+'])
    · rw [if_pos hc] at hstep
      cases hstep
      rw [hres]
      have hpred : (startsWithC ['+'] line && !(pyStripC line == ['+', '+', '+'])) = false := by
        rcases hc with hc | hc
        · rw [hc]; rfl
        · rw [hc]; simp
      rw [List.countP_cons, hpred]
      simp
    · rw [if_neg hc] at hstep
      push_neg at hc
      have hpt : startsWithC ['+'] line = true := by
        cases hsw : startsWithC ['+'] line
        · exact absurd hsw hc.1
        · rfl
      cases hstep
      rw [hres]
      have hpred : (startsWithC ['+'] line && !(pyStripC line == ['+', '+', '+'])) = true := by
        rw [hpt]
        simp [hc.2]
      rw [List.countP_cons, hpred, hpt]
      simp only [if_pos rfl, if_pos trivial]
      push_cast
      omega

/-- Claim C3, witness: the aggregate part of `c3_counter_advance` applied
to a four-entry walk with two counted additions (`"+a"`, `"+c"`), one
removal and one `"+++"` entry; the counter goes from 1 to 3. -/
theorem c3_witness :
    ((([] : List PyStr), (3 : Int)).2 : Int) = 1 +
      ((["+a".data, "-b".data, "+++".data, "+c".data].countP (fun l =>
        startsWithC ['+'] l && !(pyStripC l == ['+', '+', '+']))) : Int) :=
  c3_counter_advance.2 [] "f".data
    ["+a".data, "-b".data, "+++".data, "+c".data] ([], 1) ([], 3)
    (by decide) (by decide)

theorem crlfToLf_no_boundary (l : PyStr) (h : ∀ c ∈ l, isLineBoundary c = false) :
    crlfToLf (l ++ ['\n']) = l ++ ['\n'] := by
  induction l with
  | nil => rfl
  | cons c l' ih =>
    have hc := h c (List.mem_cons_self _ _)
    have hcr : c ≠ '\r' := by
      intro hr
      rw [hr] at hc
      simp [isLineBoundary] at hc
    have h' := fun x hx => h x (List.mem_cons_of_mem _ hx)
    rcases l' with _ | ⟨d, l''⟩
    · show crlfToLf [c, '\n'] = [c, '\n']
      unfold crlfToLf
      rw [if_neg (by rintro ⟨h1, _⟩; exact hcr h1)]
      rfl
    · show crlfToLf (c :: d :: (l'' ++ ['\n'])) = c :: d :: (l'' ++ ['\n'])
      unfold crlfToLf
      rw [if_neg (by rintro ⟨h1, _⟩; exact hcr h1)]
      rw [show d :: (l'' ++ ['\n']) = (d :: l'') ++ ['\n'] from rfl, ih h']

theorem splitlinesGo_single (l : PyStr) (h : ∀ c ∈ l, isLineBoundary c = false) :
    ∀ cur, splitlinesGo cur (l ++ ['\n']) = [cur.reverse ++ l] := by
  induction l with
  | nil =>
    intro cur
    show splitlinesGo cur ['\n'] = _
    unfold splitlinesGo
    rw [if_pos (by decide)]
    simp [splitlinesGo]
  | cons c l' ih =>
    intro cur
    have hc := h c (List.mem_cons_self _ _)
    have h' := fun x hx => h x (List.mem_cons_of_mem _ hx)
    show splitlinesGo cur (c :: (l' ++ ['\n'])) = _
    unfold splitlinesGo
    rw [if_neg (by rw [hc]; exact Bool.false_ne_true)]
    rw [ih h' (c :: cur)]
    simp

theorem pySplitlinesC_single (l : PyStr) (h : ∀ c ∈ l, isLineBoundary c = false) :
    pySplitlinesC (l ++ ['\n']) = [l] := by
  unfold pySplitlinesC
  rw [crlfToLf_no_boundary l h, splitlinesGo_single l h []]
  rfl

theorem unifiedDiffLines_nil_single (l : PyStr) :
    unifiedDiffLines [] [l] =
      [['-', '-', '-', ' '], ['+', '+', '+', ' '],
       ['@', '@', ' ', '-', '0', ',', '0', ' ', '+', '1', ' ', '@', '@'],
       '+' :: l] := by
  unfold unifiedDiffLines
  rw [show getGroupedOpcodes [] [l] 0 = [[⟨Tag.ins, 0, 0, 0, 1⟩]] from rfl]
  rfl

theorem collect_single_added (l fn : PyStr) (ps : List PyStr)
    (hb : ∀ c ∈ l, isLineBoundary c = false)
    (hs : pyStripC ('+' :: l) ≠ ['+', '+', '+']) :
    collect_errors_core fn (l ++ ['\n']) [] (some ps) =
      Except.ok ((ps.filter (fun p => reSearchC p ('+' :: l))).map
        (fun p => mkErrorC p fn 1)) := by
  unfold collect_errors_core
  rw [pySplitlinesC_single l hb]
  rw [show pySplitlinesC [] = [] from rfl]
  rw [unifiedDiffLines_nil_single l]
  have e1 : scanLines (some ps) fn
      [['-', '-', '-', ' '], ['+', '+', '+', ' '],
       ['@', '@', ' ', '-', '0', ',', '0', ' ', '+', '1', ' ', '@', '@'], '+' :: l]
      ([], 1) = scanLines (some ps) fn ['+' :: l] ([], 1) := rfl
  rw [e1]
  have e2 : scanLines (some ps) fn ['+' :: l] ([], 1) =
      match scanStep (some ps) fn ([], 1) ('+' :: l) with
      | Except.error e => Except.error e
      | Except.ok acc' => scanLines (some ps) fn [] acc' := rfl
  rw [e2, scanStep_plus ps fn ([], 1) ('+' :: l)
    (by simp [startsWithC, List.isPrefixOf]) hs
    (by simp [startsWithC, List.isPrefixOf])]
  rfl

theorem collect_errors_single_added (l fn : String) (pats : List String)
    (hb : ∀ c ∈ l.data, isLineBoundary c = false)
    (hs : pyStrip ("+" ++ l) ≠ "+++") :
    collect_errors fn (l ++ "\n") "" pats =
      Except.ok ((pats.filter (fun p => reSearch p ("+" ++ l))).map
        (fun p => mkError p fn 1)) := by
  unfold collect_errors
  have hd : (l ++ "\n").data = l.data ++ ['\n'] := by
    rw [String.data_append]
  rw [hd]
  have hsc : pyStripC ('+' :: l.data) ≠ ['+', '+', '+'] := by
    intro hc
    apply hs
    show pyStrip ("+" ++ l) = "+++"
    unfold pyStrip
    have hpl : ("+" ++ l).data = '+' :: l.data := by
      rw [String.data_append]
      rfl
    rw [hpl, hc]
  rw [collect_single_added l.data fn.data (pats.map String.data) hb hsc]
  simp only [List.filter_map, List.map_map]
  rfl

/-- Claim C8 (amended): an added line is tested against every pattern in
list order and contributes one error per matching pattern, in pattern-list
order — provided its diff entry does not strip to `"+++"`; an added line
whose entry strips to `"+++"` (content `"++"`) is skipped entirely and
contributes no errors even for patterns that match it (see the
counterexample).  Here the scan of a file whose new text is the single
added line `l` returns exactly the pattern-list-order filter of the
patterns matching the raw diff line. -/
theorem c8_matches_in_pattern_order :
    ∀ (l fn : String) (pats : List String),
      (∀ c ∈ l.data, isLineBoundary c = false) →
      pyStrip ("+" ++ l) ≠ "+++" →
      collect_errors fn (l ++ "\n") "" pats =
        Except.ok ((pats.filter (fun p => reSearch p ("+" ++ l))).map
          (fun p => mkError p fn 1)) :=
  fun l fn pats hb hs => collect_errors_single_added l fn pats hb hs

/-- Claim C8, witness: a two-pattern list where only the first pattern
matches the added line yields exactly its one error. -/
theorem c8_witness :
    collect_errors "f" ("x # xxx" ++ "\n") "" ["# xxx", "zzz"] =
      Except.ok (((["# xxx", "zzz"] : List String).filter
        (fun p => reSearch p ("+" ++ "x # xxx"))).map (fun p => mkError p "f" 1)) :=
  c8_matches_in_pattern_order "x # xxx" "f" ["# xxx", "zzz"] (by decide) (by decide)

/-- Claim C10: the regex search is applied to the raw diff line including
its leading `"+"` prefix, not to the bare line content — the errors for a
single added line `l` are exactly the patterns matching `"+" ++ l` — so
the start-anchored pattern `^#` fails to match the added line `#m`, while
the pattern `\+` is flagged on the added line `abc`, whose content
contains no `+`. -/
theorem c10_raw_line_matching :
    (∀ (l fn : String) (pats : List String),
      (∀ c ∈ l.data, isLineBoundary c = false) →
      pyStrip ("+" ++ l) ≠ "+++" →
      collect_errors fn (l ++ "\n") "" pats =
        Except.ok ((pats.filter (fun p => reSearch p ("+" ++ l))).map
          (fun p => mkError p fn 1))) ∧
    collect_errors "f" "#m\n" "" ["^#"] = Except.ok [] ∧
    collect_errors "f" "abc\n" "" ["\\+"] =
      Except.ok ["Error pattern '\\\\+' detected at f:1"] :=
  ⟨collect_errors_single_added, rfl, rfl⟩

/-- Claim C10, witness: the general part of `c10_raw_line_matching`
instantiated at the anchored pattern `^#` and added line `#m`. -/
theorem c10_witness :
    collect_errors "f" ("#m" ++ "\n") "" ["^#"] =
      Except.ok (((["^#"] : List String).filter
        (fun p => reSearch p ("+" ++ "#m"))).map (fun p => mkError p "f" 1)) :=
  c10_raw_line_matching.1 "#m" "f" ["^#"] (by decide) (by decide)

theorem splitOnGo_cons (sep x : Char) (t cur : PyStr) :
    splitOnGo sep cur (x :: t) =
      if x = sep then cur.reverse :: splitOnGo sep [] t
      else splitOnGo sep (x :: cur) t := rfl

theorem splitOnGo_no_sep (sep : Char) (xs : PyStr) (h : ∀ x ∈ xs, x ≠ sep) :
    ∀ cur, splitOnGo sep cur xs = [cur.reverse ++ xs] := by
  induction xs with
  | nil => intro cur; simp [splitOnGo]
  | cons x rest ih =>
    intro cur
    rw [splitOnGo_cons, if_neg (h x (List.mem_cons_self _ _))]
    rw [ih (fun y hy => h y (List.mem_cons_of_mem _ hy)) (x :: cur)]
    simp

theorem splitOnGo_sep_split (sep : Char) (xs : PyStr)
    (h : ∀ x ∈ xs, x ≠ sep) (rest : PyStr) :
    ∀ cur, splitOnGo sep cur (xs ++ sep :: rest) =
      (cur.reverse ++ xs) :: splitOnGo sep [] rest := by
  induction xs with
  | nil =>
    intro cur
    show splitOnGo sep cur (sep :: rest) = _
    rw [splitOnGo_cons, if_pos rfl]
    simp
  | cons x xs' ih =>
    intro cur
    show splitOnGo sep cur (x :: (xs' ++ sep :: rest)) = _
    rw [splitOnGo_cons, if_neg (h x (List.mem_cons_self _ _))]
    rw [ih (fun y hy => h y (List.mem_cons_of_mem _ hy)) (x :: cur)]
    simp

theorem dropWhile_no_hit (p : Char → Bool) (s : PyStr)
    (h : ∀ x ∈ s, p x = false) : s.dropWhile p = s := by
  cases s with
  | nil => rfl
  | cons a l =>
    rw [List.dropWhile_cons, if_neg]
    rw [h a (List.mem_cons_self _ _)]
    exact Bool.false_ne_true

theorem pyStripC_no_space (s : PyStr) (h : ∀ x ∈ s, isPySpace x = false) :
    pyStripC s = s := by
  unfold pyStripC
  rw [dropWhile_no_hit _ _ h,
    dropWhile_no_hit _ _ (fun x hx => h x (List.mem_reverse.1 hx)),
    List.reverse_reverse]

theorem isDigit_ne_space {x : Char} (h : x.isDigit = true) : x ≠ ' ' :=
  fun hx => absurd (hx ▸ h) (by decide)

theorem isDigit_ne_comma {x : Char} (h : x.isDigit = true) : x ≠ ',' :=
  fun hx => absurd (hx ▸ h) (by decide)

theorem isDigit_not_pyspace {x : Char} (h : x.isDigit = true) :
    isPySpace x = false := by
  cases hsp : isPySpace x
  · rfl
  · exfalso
    simp only [isPySpace, decide_eq_true_eq] at hsp
    rcases hsp with rfl | rfl | rfl | rfl | rfl | rfl | rfl | rfl | rfl | rfl | rfl | rfl <;>
      exact absurd h (by decide)

theorem pyIntC_plus_digits (c : PyStr) (hne : c ≠ [])
    (hdig : ∀ x ∈ c, x.isDigit = true) :
    pyIntC ('+' :: c) = Except.ok (Int.ofNat (digitsVal c)) := by
  unfold pyIntC
  have hstrip : pyStripC ('+' :: c) = '+' :: c := by
    apply pyStripC_no_space
    intro x hx
    rcases List.mem_cons.1 hx with rfl | hx'
    · rfl
    · exact isDigit_not_pyspace (hdig x hx')
  rw [hstrip]
  dsimp only
  rw [if_pos ⟨hne, List.all_eq_true.2 (fun x hx => hdig x hx)⟩]
  show Except.ok ((1 : Int) * Int.ofNat (digitsVal c)) = _
  rw [one_mul]

/-- Claim C7: `parse_line_number` raises `ValueError` (and never returns a
number) for every line not starting with `"@@"` and for every line that
does not split into exactly four space-separated fields, and for every
well-formed header `@@ -a,b +c,d @@` (with `a`, `b`, `c`, `d` non-empty
digit strings) it returns the value of `c`, the new-file starting line. -/
theorem c7_parse_line_number :
    (∀ line : String, pyStartsWith line "@@" = false →
      parse_line_number line = Except.error "ValueError: Not a unified-diff header") ∧
    (∀ line : String, (pySplitSpace line).length ≠ 4 →
      ∃ msg, parse_line_number line = Except.error msg) ∧
    (∀ a b c d : PyStr, a ≠ [] → b ≠ [] → c ≠ [] → d ≠ [] →
      (∀ x ∈ a, x.isDigit = true) → (∀ x ∈ b, x.isDigit = true) →
      (∀ x ∈ c, x.isDigit = true) → (∀ x ∈ d, x.isDigit = true) →
      parse_line_number_core
        ('@' :: '@' :: ' ' :: '-' ::
          (a ++ ',' :: (b ++ ' ' :: '+' :: (c ++ ',' :: (d ++ [' ', '@', '@']))))) =
        Except.ok (Int.ofNat (digitsVal c))) := by
  refine ⟨?_, ?_, ?_⟩
  · intro line h
    unfold parse_line_number parse_line_number_core
    rw [if_pos]
    exact h
  · intro line h
    by_cases hsw : startsWithC ['@', '@'] line.data = false
    · exact ⟨_, by unfold parse_line_number parse_line_number_core; rw [if_pos hsw]⟩
    · refine ⟨"ValueError: Not a unified-diff header", ?_⟩
      unfold parse_line_number parse_line_number_core
      rw [if_neg hsw]
      rw [if_pos]
      have : (pySplitSpace line).length = (pySplitOnC ' ' line.data).length := by
        unfold pySplitSpace
        rw [List.length_map]
      rw [this] at h
      exact h
  · intro a b c d ha hb hc hd hda hdb hdc hdd
    have hnoa : ∀ x ∈ a, x ≠ ' ' := fun x hx => isDigit_ne_space (hda x hx)
    have hnob : ∀ x ∈ b, x ≠ ' ' := fun x hx => isDigit_ne_space (hdb x hx)
    have hnoc : ∀ x ∈ c, x ≠ ' ' := fun x hx => isDigit_ne_space (hdc x hx)
    have hnod : ∀ x ∈ d, x ≠ ' ' := fun x hx => isDigit_ne_space (hdd x hx)
    have hsplit : pySplitOnC ' '
        ('@' :: '@' :: ' ' :: '-' ::
          (a ++ ',' :: (b ++ ' ' :: '+' :: (c ++ ',' :: (d ++ [' ', '@', '@']))))) =
        [['@', '@'], '-' :: (a ++ ',' :: b), '+' :: (c ++ ',' :: d), ['@', '@']] := by
      show splitOnGo ' ' [] _ = _
      rw [show ('@' :: '@' :: ' ' :: '-' ::
          (a ++ ',' :: (b ++ ' ' :: '+' :: (c ++ ',' :: (d ++ [' ', '@', '@']))))) =
          ['@', '@'] ++ ' ' :: (('-' :: (a ++ ',' :: b)) ++
            ' ' :: (('+' :: (c ++ ',' :: d)) ++ ' ' :: ['@', '@'])) from by simp]
      rw [splitOnGo_sep_split ' ' ['@', '@'] (by decide) _ []]
      rw [splitOnGo_sep_split ' ' ('-' :: (a ++ ',' :: b)) ?ha _ []]
      case ha =>
        intro x hx
        rcases List.mem_cons.1 hx with rfl | hx'
        · decide
        rcases List.mem_append.1 hx' with hxa | hxc
        · exact hnoa x hxa
        rcases List.mem_cons.1 hxc with rfl | hxb
        · decide
        · exact hnob x hxb
      rw [splitOnGo_sep_split ' ' ('+' :: (c ++ ',' :: d)) ?hb _ []]
      case hb =>
        intro x hx
        rcases List.mem_cons.1 hx with rfl | hx'
        · decide
        rcases List.mem_append.1 hx' with hxc | hxd
        · exact hnoc x hxc
        rcases List.mem_cons.1 hxd with rfl | hxd'
        · decide
        · exact hnod x hxd'
      rw [splitOnGo_no_sep ' ' ['@', '@'] (by decide) []]
      simp
    unfold parse_line_number_core
    rw [if_neg (by simp [startsWithC, List.isPrefixOf])]
    rw [hsplit]
    rw [if_neg (by simp)]
    have hget : ([['@', '@'], '-' :: (a ++ ',' :: b), '+' :: (c ++ ',' :: d),
        ['@', '@']].getD 2 []) = '+' :: (c ++ ',' :: d) := rfl
    rw [hget]
    have hsplit2 : pySplitOnC ',' ('+' :: (c ++ ',' :: d)) = ['+' :: c, d] := by
      show splitOnGo ',' [] _ = _
      rw [show ('+' :: (c ++ ',' :: d)) = ('+' :: c) ++ ',' :: d from by simp]
      rw [splitOnGo_sep_split ',' ('+' :: c) ?hc d []]
      case hc =>
        intro x hx
        rcases List.mem_cons.1 hx with rfl | hx'
        · decide
        · exact isDigit_ne_comma (hdc x hx')
      rw [splitOnGo_no_sep ',' d (fun x hx => isDigit_ne_comma (hdd x hx)) []]
      simp
    rw [hsplit2]
    exact pyIntC_plus_digits c hc hdc

/-- Claim C7, witness: the three parts of `c7_parse_line_number` applied to
a non-header line, a five-field `@@` line, and the well-formed header
`@@ -14,0 +20,3 @@` (which parses to 20, matching the source doctest). -/
theorem c7_witness :
    parse_line_number "no" = Except.error "ValueError: Not a unified-diff header" ∧
    (∃ msg, parse_line_number "@@ -1 +2 3 @@" = Except.error msg) ∧
    parse_line_number_core
      ('@' :: '@' :: ' ' :: '-' ::
        (['1', '4'] ++ ',' :: (['0'] ++ ' ' :: '+' ::
          (['2', '0'] ++ ',' :: (['3'] ++ [' ', '@', '@']))))) =
      Except.ok (Int.ofNat (digitsVal ['2', '0'])) :=
  ⟨c7_parse_line_number.1 "no" (by decide),
   c7_parse_line_number.2.1 "@@ -1 +2 3 @@" (by decide),
   c7_parse_line_number.2.2 ['1', '4'] ['0'] ['2', '0'] ['3']
     (by decide) (by decide) (by decide) (by decide)
     (by decide) (by decide) (by decide) (by decide)⟩

theorem mem_b2jList {l : List PyStr} {x : PyStr} {j : Nat} :
    j ∈ b2jList l x ↔
      (bpopular l x = false ∧ j < l.length ∧ l.getD j [] = x) := by
  unfold b2jList
  cases hp : bpopular l x
  · rw [if_neg Bool.false_ne_true]
    simp [List.mem_filter, List.mem_range]
  · rw [if_pos rfl]
    simp

theorem b2j_self {l : List PyStr} {i j : Nat}
    (hij : j ∈ b2jList l (l.getD i [])) (hi : i < l.length) :
    i ∈ b2jList l (l.getD i []) := by
  rw [mem_b2jList] at hij ⊢
  exact ⟨hij.1, hi, rfl⟩

theorem b2j_diag {l : List PyStr} {i j : Nat}
    (hij : j ∈ b2jList l (l.getD i [])) :
    j ∈ b2jList l (l.getD j []) := by
  rw [mem_b2jList] at hij ⊢
  rcases hij with ⟨hp, hj, hx⟩
  rw [hx]
  exact ⟨hp, hj, rfl⟩

theorem b2j_lt {l : List PyStr} {x : PyStr} {j : Nat}
    (hij : j ∈ b2jList l x) : j < l.length :=
  (mem_b2jList.1 hij).2.1

theorem chainK_zero (l : List PyStr) (j : Nat) :
    chainK l 0 j = if j ∈ b2jList l (l.getD 0 []) then 1 else 0 := rfl

theorem chainK_succ (l : List PyStr) (i j : Nat) :
    chainK l (i + 1) j =
      if j ∈ b2jList l (l.getD (i + 1) []) then
        (match j with
         | 0 => 1
         | j' + 1 => chainK l i j' + 1)
      else 0 := rfl

theorem chainK_zero_mem {l : List PyStr} {j : Nat}
    (h : j ∈ b2jList l (l.getD 0 [])) : chainK l 0 j = 1 := by
  rw [chainK_zero, if_pos h]

theorem chainK_succ_zero_mem {l : List PyStr} {i : Nat}
    (h : 0 ∈ b2jList l (l.getD (i + 1) [])) : chainK l (i + 1) 0 = 1 := by
  rw [chainK_succ, if_pos h]

theorem chainK_succ_succ_mem {l : List PyStr} {i j : Nat}
    (h : (j + 1) ∈ b2jList l (l.getD (i + 1) [])) :
    chainK l (i + 1) (j + 1) = chainK l i j + 1 := by
  rw [chainK_succ, if_pos h]

theorem chainK_not_mem {l : List PyStr} {i j : Nat}
    (h : j ∉ b2jList l (l.getD i [])) : chainK l i j = 0 := by
  cases i
  · rw [chainK_zero, if_neg h]
  · rw [chainK_succ, if_neg h]

theorem chainK_pos_mem {l : List PyStr} {i j : Nat}
    (h : j ∈ b2jList l (l.getD i [])) : 1 ≤ chainK l i j := by
  cases i with
  | zero => rw [chainK_zero_mem h]
  | succ i' =>
    cases j with
    | zero => rw [chainK_succ_zero_mem h]
    | succ j' => rw [chainK_succ_succ_mem h]; omega

theorem chainK_le_i (l : List PyStr) : ∀ i j, chainK l i j ≤ i + 1 := by
  intro i
  induction i with
  | zero =>
    intro j
    by_cases h : j ∈ b2jList l (l.getD 0 [])
    · rw [chainK_zero_mem h]
    · rw [chainK_not_mem h]; omega
  | succ i' ih =>
    intro j
    by_cases h : j ∈ b2jList l (l.getD (i' + 1) [])
    · cases j with
      | zero => rw [chainK_succ_zero_mem h]; omega
      | succ j' =>
        rw [chainK_succ_succ_mem h]
        have := ih j'
        omega
    · rw [chainK_not_mem h]; omega

theorem chainK_le_diag (l : List PyStr) :
    ∀ i, i < l.length → ∀ j,
      chainK l i j ≤ chainK l j j ∧ chainK l i j ≤ chainK l i i := by
  intro i
  induction i with
  | zero =>
    intro hi j
    by_cases h : j ∈ b2jList l (l.getD 0 [])
    · rw [chainK_zero_mem h]
      constructor
      · exact chainK_pos_mem (b2j_diag h)
      · exact chainK_pos_mem (b2j_self h hi)
    · rw [chainK_not_mem h]
      omega
  | succ i' ih =>
    intro hi j
    by_cases h : j ∈ b2jList l (l.getD (i' + 1) [])
    · have hii : (i' + 1) ∈ b2jList l (l.getD (i' + 1) []) := b2j_self h hi
      have hKii : chainK l (i' + 1) (i' + 1) = chainK l i' i' + 1 :=
        chainK_succ_succ_mem hii
      cases j with
      | zero =>
        rw [chainK_succ_zero_mem h]
        refine ⟨chainK_pos_mem (b2j_diag h), ?_⟩
        rw [hKii]; omega
      | succ j' =>
        rw [chainK_succ_succ_mem h]
        have hjj : chainK l (j' + 1) (j' + 1) = chainK l j' j' + 1 :=
          chainK_succ_succ_mem (b2j_diag h)
        have hIH := ih (by omega) j'
        constructor
        · rw [hjj]; omega
        · rw [hKii]; omega
    · rw [chainK_not_mem h]
      omega

theorem innerGo_nil (blo bhi i : Nat) (prev nj : Nat → Nat)
    (best : Nat × Nat × Nat) :
    innerGo blo bhi i [] prev nj best = (nj, best) := rfl

theorem innerGo_cons (blo bhi i j : Nat) (rest : List Nat)
    (prev nj : Nat → Nat) (best : Nat × Nat × Nat) :
    innerGo blo bhi i (j :: rest) prev nj best =
      if j < blo then innerGo blo bhi i rest prev nj best
      else if bhi ≤ j then (nj, best)
      else
        innerGo blo bhi i rest prev
          (fun x => if x = j then (if j = 0 then 0 else prev (j - 1)) + 1 else nj x)
          (if best.2.2 < (if j = 0 then 0 else prev (j - 1)) + 1 then
            (i + 1 - ((if j = 0 then 0 else prev (j - 1)) + 1),
             j + 1 - ((if j = 0 then 0 else prev (j - 1)) + 1),
             (if j = 0 then 0 else prev (j - 1)) + 1)
           else best) := rfl

theorem k_eq_chainK (l : List PyStr) (i : Nat) (prev : Nat → Nat)
    (hprev : ∀ j, prev j = if i = 0 then 0 else chainK l (i - 1) j)
    (j : Nat) (hm : j ∈ b2jList l (l.getD i [])) :
    (if j = 0 then 0 else prev (j - 1)) + 1 = chainK l i j := by
  cases i with
  | zero =>
    cases j with
    | zero => rw [if_pos rfl, chainK_zero_mem hm]
    | succ j' =>
      rw [if_neg (Nat.succ_ne_zero j'), hprev, if_pos rfl, chainK_zero_mem hm]
  | succ i' =>
    cases j with
    | zero => rw [if_pos rfl, chainK_succ_zero_mem hm]
    | succ j' =>
      rw [if_neg (Nat.succ_ne_zero j'), hprev, if_neg (Nat.succ_ne_zero i'),
        chainK_succ_succ_mem hm]
      rfl

theorem innerGo_self (l : List PyStr) (i : Nat) (hi : i < l.length)
    (prev : Nat → Nat)
    (hprev : ∀ j, prev j = if i = 0 then 0 else chainK l (i - 1) j) :
    ∀ (js : List Nat) (nj : Nat → Nat) (best : Nat × Nat × Nat),
      (∀ j ∈ js, j ∈ b2jList l (l.getD i [])) →
      js.Pairwise (· < ·) →
      best.1 = best.2.1 →
      best.1 + best.2.2 ≤ l.length →
      (∀ m, m < i → chainK l m m ≤ best.2.2) →
      (i ∈ js ∨ chainK l i i ≤ best.2.2) →
      (∀ j, nj j = if j ∈ b2jList l (l.getD i []) ∧ j ∉ js then chainK l i j else 0) →
      ((innerGo 0 l.length i js prev nj best).2.1 =
         (innerGo 0 l.length i js prev nj best).2.2.1 ∧
       (innerGo 0 l.length i js prev nj best).2.1 +
         (innerGo 0 l.length i js prev nj best).2.2.2 ≤ l.length ∧
       (∀ m, m < i + 1 →
         chainK l m m ≤ (innerGo 0 l.length i js prev nj best).2.2.2) ∧
       (∀ j, (innerGo 0 l.length i js prev nj best).1 j = chainK l i j)) := by
  intro js
  induction js with
  | nil =>
    intro nj best hmem hpw hdiag hbound hdom hG hnj
    rw [innerGo_nil]
    refine ⟨hdiag, hbound, ?_, ?_⟩
    · intro m hm
      rcases Nat.lt_succ_iff_lt_or_eq.1 hm with hlt | rfl
      · exact hdom m hlt
      · rcases hG with hin | hle
        · exact absurd hin (List.not_mem_nil _)
        · exact hle
    · intro j
      show nj j = _
      rw [hnj j]
      by_cases hjm : j ∈ b2jList l (l.getD i [])
      · rw [if_pos ⟨hjm, List.not_mem_nil j⟩]
      · rw [if_neg (fun hc => hjm hc.1), chainK_not_mem hjm]
  | cons j0 rest ih =>
    intro nj best hmem hpw hdiag hbound hdom hG hnj
    have hj0 : j0 ∈ b2jList l (l.getD i []) := hmem j0 (List.mem_cons_self _ _)
    have hj0n : j0 < l.length := b2j_lt hj0
    have hmem' : ∀ j ∈ rest, j ∈ b2jList l (l.getD i []) :=
      fun j hj => hmem j (List.mem_cons_of_mem _ hj)
    rcases List.pairwise_cons.1 hpw with ⟨hj0rest, hpw'⟩
    have hj0notrest : j0 ∉ rest := fun h => Nat.lt_irrefl j0 (hj0rest j0 h)
    rw [innerGo_cons, if_neg (Nat.not_lt_zero j0), if_neg (Nat.not_le.2 hj0n)]
    set kv := (if j0 = 0 then 0 else prev (j0 - 1)) + 1 with hkv
    have hk : kv = chainK l i j0 := by
      rw [hkv]
      exact k_eq_chainK l i prev hprev j0 hj0
    have hnj' : ∀ j,
        (fun x => if x = j0 then kv else nj x) j =
          if j ∈ b2jList l (l.getD i []) ∧ j ∉ rest then chainK l i j else 0 := by
      intro j
      by_cases hjj0 : j = j0
      · subst hjj0
        show (if j = j then kv else nj j) = _
        rw [if_pos rfl, if_pos ⟨hj0, hj0notrest⟩]
        exact hk
      · show (if j = j0 then kv else nj j) = _
        rw [if_neg hjj0, hnj j]
        refine if_congr ?_ rfl rfl
        simp [List.mem_cons, hjj0]
    rcases Nat.lt_trichotomy j0 i with hlt | heq | hgt
    · -- candidate strictly left of the diagonal: dominated, no update
      have hKle : chainK l i j0 ≤ best.2.2 :=
        le_trans (chainK_le_diag l i hi j0).1 (hdom j0 hlt)
      have hnoupd : ¬ (best.2.2 < kv) := by
        rw [hk]
        exact Nat.not_lt.2 hKle
      rw [if_neg hnoupd]
      refine ih _ _ hmem' hpw' hdiag hbound hdom ?_ hnj'
      rcases hG with hin | hle
      · rcases List.mem_cons.1 hin with heq2 | hinrest
        · exact absurd heq2 (by omega)
        · exact Or.inl hinrest
      · exact Or.inr hle
    · -- the diagonal candidate itself
      subst heq
      have hkle : kv ≤ j0 + 1 := by
        rw [hk]
        exact chainK_le_i l j0 j0
      by_cases hupd : best.2.2 < kv
      · rw [if_pos hupd]
        refine ih _ _ hmem' hpw' rfl ?_ ?_ ?_ hnj'
        · show j0 + 1 - kv + kv ≤ l.length
          omega
        · intro m hm
          exact le_trans (hdom m hm) (Nat.le_of_lt hupd)
        · refine Or.inr ?_
          show chainK l j0 j0 ≤ kv
          rw [hk]
      · rw [if_neg hupd]
        refine ih _ _ hmem' hpw' hdiag hbound hdom ?_ hnj'
        refine Or.inr ?_
        rw [← hk]
        exact Nat.not_lt.1 hupd
    · -- candidate strictly right of the diagonal: dominated by the diagonal
      have hGright : chainK l i i ≤ best.2.2 := by
        rcases hG with hin | hle
        · rcases List.mem_cons.1 hin with heq2 | hinrest
          · exact absurd heq2 (by omega)
          · exact absurd (hj0rest i hinrest) (by omega)
        · exact hle
      have hKle : chainK l i j0 ≤ best.2.2 :=
        le_trans (chainK_le_diag l i hi j0).2 hGright
      have hnoupd : ¬ (best.2.2 < kv) := by
        rw [hk]
        exact Nat.not_lt.2 hKle
      rw [if_neg hnoupd]
      exact ih _ _ hmem' hpw' hdiag hbound hdom (Or.inr hGright) hnj'

theorem b2j_pairwise (l : List PyStr) (x : PyStr) :
    (b2jList l x).Pairwise (· < ·) := by
  unfold b2jList
  split
  · exact List.Pairwise.nil
  · exact (List.pairwise_lt_range _).filter _

theorem outerGo_self (l : List PyStr) :
    ∀ (cnt i : Nat) (j2len : Nat → Nat) (best : Nat × Nat × Nat),
      i + cnt = l.length →
      (∀ j, j2len j = if i = 0 then 0 else chainK l (i - 1) j) →
      best.1 = best.2.1 →
      best.1 + best.2.2 ≤ l.length →
      (∀ m, m < i → chainK l m m ≤ best.2.2) →
      ((outerGo l l 0 l.length (List.range' i cnt) j2len best).1 =
         (outerGo l l 0 l.length (List.range' i cnt) j2len best).2.1 ∧
       (outerGo l l 0 l.length (List.range' i cnt) j2len best).1 +
         (outerGo l l 0 l.length (List.range' i cnt) j2len best).2.2 ≤ l.length) := by
  intro cnt
  induction cnt with
  | zero =>
    intro i j2len best hin hj2len hdiag hbound hdom
    exact ⟨hdiag, hbound⟩
  | succ cnt' ih =>
    intro i j2len best hin hj2len hdiag hbound hdom
    have hi : i < l.length := by omega
    rw [List.range'_succ]
    have hstep : outerGo l l 0 l.length (i :: List.range' (i + 1) cnt') j2len best =
        outerGo l l 0 l.length (List.range' (i + 1) cnt')
          (innerGo 0 l.length i (b2jList l (l.getD i [])) j2len (fun _ => 0) best).1
          (innerGo 0 l.length i (b2jList l (l.getD i [])) j2len (fun _ => 0) best).2 :=
      rfl
    rw [hstep]
    have hGinit : i ∈ b2jList l (l.getD i []) ∨ chainK l i i ≤ best.2.2 := by
      by_cases hJ : i ∈ b2jList l (l.getD i [])
      · exact Or.inl hJ
      · rw [chainK_not_mem hJ]
        exact Or.inr (Nat.zero_le _)
    have hnjinit : ∀ j, (fun _ => (0 : Nat)) j =
        if j ∈ b2jList l (l.getD i []) ∧ j ∉ b2jList l (l.getD i []) then
          chainK l i j else 0 := by
      intro j
      rw [if_neg (fun hc => hc.2 hc.1)]
    obtain ⟨hdiag', hbound', hdom', hnj'⟩ :=
      innerGo_self l i hi j2len hj2len (b2jList l (l.getD i [])) (fun _ => 0) best
        (fun j hj => hj) (b2j_pairwise l _) hdiag hbound hdom hGinit hnjinit
    refine ih (i + 1) _ _ (by omega) ?_ hdiag' hbound' (fun m hm => hdom' m hm)
    intro j
    rw [hnj' j, if_neg (Nat.succ_ne_zero i)]
    rfl

theorem extBack_diag (l : List PyStr) :
    ∀ d s, extBack l l 0 0 d d s = (0, 0, s + d) := by
  intro d
  induction d with
  | zero =>
    intro s
    show (0, 0, s) = (0, 0, s + 0)
    rw [Nat.add_zero]
  | succ d' ih =>
    intro s
    show extBack l l 0 0 (d' + 1) (d' + 1) s = _
    unfold extBack
    rw [if_pos ⟨Nat.succ_pos d', Nat.succ_pos d', rfl⟩]
    show extBack l l 0 0 d' d' (s + 1) = _
    rw [ih (s + 1)]
    have : s + 1 + d' = s + (d' + 1) := by omega
    rw [this]

theorem extFwd_diag (l : List PyStr) :
    ∀ fuel bs, fuel = l.length - bs → bs ≤ l.length →
      extFwdGo l l l.length l.length 0 0 fuel bs = l.length := by
  intro fuel
  induction fuel with
  | zero =>
    intro bs h hle
    show bs = l.length
    omega
  | succ f ih =>
    intro bs h hle
    have hbs : bs < l.length := by omega
    show extFwdGo l l l.length l.length 0 0 (f + 1) bs = l.length
    unfold extFwdGo
    rw [if_pos ⟨by omega, by omega, rfl⟩]
    exact ih (bs + 1) (by omega) (by omega)

theorem findLongestMatch_self (l : List PyStr) :
    findLongestMatch l l 0 l.length 0 l.length = (0, 0, l.length) := by
  unfold findLongestMatch
  rw [Nat.sub_zero]
  rcases hr : outerGo l l 0 l.length (List.range' 0 l.length) (fun _ => 0)
      (0, 0, 0) with ⟨bi, bj, bs⟩
  have hprop := outerGo_self l l.length 0 (fun _ => 0) (0, 0, 0)
    (Nat.zero_add _) (fun j => rfl) rfl (Nat.zero_le _)
    (fun m hm => absurd hm (Nat.not_lt_zero m))
  rw [hr] at hprop
  obtain ⟨hdiag, hbound⟩ := hprop
  dsimp only at hdiag hbound
  subst hdiag
  simp only [extBack_diag l bi bs]
  simp only [Nat.zero_add]
  rw [extFwd_diag l (l.length - (bs + bi)) (bs + bi) rfl (by omega)]

theorem collapseGo_nil (i1 j1 k1 : Nat) :
    collapseGo i1 j1 k1 [] = if k1 ≠ 0 then [(i1, j1, k1)] else [] := rfl

theorem collapseGo_cons (i1 j1 k1 i2 j2 k2 : Nat) (rest : List (Nat × Nat × Nat)) :
    collapseGo i1 j1 k1 ((i2, j2, k2) :: rest) =
      if i1 + k1 = i2 ∧ j1 + k1 = j2 then collapseGo i1 j1 (k1 + k2) rest
      else (if k1 ≠ 0 then [(i1, j1, k1)] else []) ++ collapseGo i2 j2 k2 rest := rfl

theorem getMatchingBlocks_self (l : List PyStr) (hne : l.length ≠ 0) :
    getMatchingBlocks l l = [(0, 0, l.length), (l.length, l.length, 0)] := by
  unfold getMatchingBlocks
  have hstep : mbRec l l (l.length + l.length + 1) 0 l.length 0 l.length =
      (let r := findLongestMatch l l 0 l.length 0 l.length
       if r.2.2 = 0 then []
       else
         (if 0 < r.1 ∧ 0 < r.2.1 then
           mbRec l l (l.length + l.length) 0 r.1 0 r.2.1 else []) ++
         [(r.1, r.2.1, r.2.2)] ++
         (if r.1 + r.2.2 < l.length ∧ r.2.1 + r.2.2 < l.length then
           mbRec l l (l.length + l.length) (r.1 + r.2.2) l.length
             (r.2.1 + r.2.2) l.length
          else [])) := rfl
  rw [hstep, findLongestMatch_self l]
  dsimp only
  rw [if_neg hne, if_neg (by omega : ¬((0 : Nat) < 0 ∧ (0 : Nat) < 0)),
    if_neg (by omega : ¬(0 + l.length < l.length ∧ 0 + l.length < l.length))]
  rw [List.nil_append, List.append_nil]
  rw [collapseGo_cons, if_pos ⟨rfl, rfl⟩, collapseGo_nil, if_pos (by omega)]
  simp

theorem getMatchingBlocks_self_nil (l : List PyStr) (h0 : l.length = 0) :
    getMatchingBlocks l l = [(0, 0, 0)] := by
  rw [List.length_eq_zero.1 h0]
  rfl

theorem getOpcodes_self (l : List PyStr) (hne : l.length ≠ 0) :
    getOpcodes l l = [⟨Tag.eq, 0, l.length, 0, l.length⟩] := by
  unfold getOpcodes
  rw [getMatchingBlocks_self l hne]
  simp [opcodesGo, hne]

theorem getGroupedOpcodes_self (l : List PyStr) :
    getGroupedOpcodes l l 0 = [] := by
  rcases Nat.eq_zero_or_pos l.length with h0 | hpos
  · rw [List.length_eq_zero.1 h0]
    rfl
  · have hne : l.length ≠ 0 := by omega
    unfold getGroupedOpcodes
    rw [getOpcodes_self l hne]
    simp [mapLast, groupGo, isSingleEq, Nat.sub_self]

theorem unifiedDiffLines_self (l : List PyStr) : unifiedDiffLines l l = [] := by
  unfold unifiedDiffLines
  rw [getGroupedOpcodes_self l]

/-- Claim C4: scanning a file whose old and new contents are identical
never reports an error: the sequence matcher finds the whole text as one
equal block (shown via an invariant of its dynamic-programming loop: on
identical inputs the running best match always lies on the diagonal, and
the extension loops then grow it to the full window), `unified_diff` with
zero context therefore emits no lines at all, and `collect_errors`
returns the empty list for every text, file name and pattern list. -/
theorem c4_identical_no_errors (t fn : String) (pats : List String) :
    collect_errors fn t t pats = Except.ok [] := by
  unfold collect_errors collect_errors_core
  rw [unifiedDiffLines_self]
  rfl

/-- Claim C9, witness: the skip part of `c9_new_file_skipped` applied to an
entry whose two blobs share an object id. -/
theorem c9_witness :
    processDiff (some ["# xxx"])
      ⟨some ⟨5, some "# xxx\n"⟩, some ⟨5, some ""⟩, some "f"⟩ = Except.ok [] :=
  c9_new_file_skipped.2.2 (some ["# xxx"])
    ⟨some ⟨5, some "# xxx\n"⟩, some ⟨5, some ""⟩, some "f"⟩ (by decide)
